import Mathlib

/-!
Verification of the rm2in2 input-injection engine.

Shallow embedding of the C sources:
* `src/Rm2/src/inject.c` — ring-buffer event queue, Wacom device
  classification, FIFO command parser, coordinate transform, `read` hook;
* `src/resources/old/rm2-inject-v4/src/inject_hook.c` — the variant with the
  suppression controller (quiet window after injections) and cursor tracking;
* `src/test-output/analysis_coords.h` — empirically calibrated coordinate
  transform constants.

Machine integers are modelled as `Int`/`Nat`; C integer division (which
truncates toward zero) is modelled with `Int.tdiv`.  All inputs appearing in
the claims stay far from 32-bit overflow, so plain integers are faithful.
-/

namespace Rm2

/-- One `struct input_event` record (the `time` field is never read or set by
the injection code, so it is omitted): 16 bytes on the 32-bit ARM target. -/
structure RawEvent where
  type : Nat
  code : Nat
  value : Int
deriving DecidableEq

/-- `EV_SYN` from `<linux/input.h>`. -/
def EV_SYN : Nat := 0
/-- `EV_KEY` from `<linux/input.h>`. -/
def EV_KEY : Nat := 1
/-- `EV_ABS` from `<linux/input.h>`. -/
def EV_ABS : Nat := 3
/-- `SYN_REPORT` from `<linux/input.h>`. -/
def SYN_REPORT : Nat := 0
/-- `BTN_TOOL_PEN` from `<linux/input.h>`. -/
def BTN_TOOL_PEN : Nat := 320
/-- `BTN_TOUCH` from `<linux/input.h>`. -/
def BTN_TOUCH : Nat := 330
/-- `ABS_X` from `<linux/input.h>`. -/
def ABS_X : Nat := 0
/-- `ABS_Y` from `<linux/input.h>`. -/
def ABS_Y : Nat := 1
/-- `ABS_PRESSURE` from `<linux/input.h>`. -/
def ABS_PRESSURE : Nat := 24

/-- `make_event` from inject.c (and inject_hook.c): builds a zeroed record and
fills type/code/value. -/
def make_event (type code : Nat) (value : Int) : RawEvent :=
  ⟨type, code, value⟩

/-- `MAX_QUEUE` from inject.c (`MAX_QUEUE_SIZE` in inject_hook.c). -/
def MAX_QUEUE : Nat := 10000

/-- The ring-buffer event queue of inject.c
(`static struct input_event queue[MAX_QUEUE]; int q_head, q_tail;`).
inject_hook.c declares the identical structure (`event_queue`,
`queue_head`, `queue_tail`).  The mutex only serialises access and carries no
state, so it is not modelled. -/
structure EventQueue where
  store : Nat → RawEvent
  q_head : Nat
  q_tail : Nat

/-- The initial queue: C static storage is zero-initialised. -/
def emptyQueue : EventQueue :=
  ⟨fun _ => ⟨0, 0, 0⟩, 0, 0⟩

/-- `enqueue` from inject.c (identical logic to `queue_event` in
inject_hook.c): if the ring is not full, store at `q_tail` and advance
`q_tail`; otherwise drop the new event (a warning is printed). -/
def enqueue (ev : RawEvent) (q : EventQueue) : EventQueue :=
  if (q.q_tail + 1) % MAX_QUEUE ≠ q.q_head then
    { q with
      store := fun i => if i = q.q_tail then ev else q.store i,
      q_tail := (q.q_tail + 1) % MAX_QUEUE }
  else
    q

/-- `dequeue` from inject.c (identical logic to `dequeue_event` in
inject_hook.c): returns `none` on an empty ring, else the record at `q_head`,
advancing `q_head`. -/
def dequeue (q : EventQueue) : Option RawEvent × EventQueue :=
  if q.q_head = q.q_tail then (none, q)
  else (some (q.store q.q_head), { q with q_head := (q.q_head + 1) % MAX_QUEUE })

/-- `has_events` from inject.c (`queue_has_events` in inject_hook.c). -/
def has_events (q : EventQueue) : Bool := q.q_head ≠ q.q_tail

/-- Well-formedness: both indices stay inside the ring.  Every state reachable
from `emptyQueue` satisfies it, because indices are only ever reduced
`% MAX_QUEUE`. -/
def wf (q : EventQueue) : Prop := q.q_head < MAX_QUEUE ∧ q.q_tail < MAX_QUEUE

instance (q : EventQueue) : Decidable (wf q) := by
  unfold wf; infer_instance

/-- Number of records currently stored in the ring. -/
def size (q : EventQueue) : Nat := (q.q_tail + MAX_QUEUE - q.q_head) % MAX_QUEUE

/-- The stored records in FIFO order (oldest first). -/
def toList (q : EventQueue) : List RawEvent :=
  (List.range (size q)).map (fun i => q.store ((q.q_head + i) % MAX_QUEUE))

/-- Enqueue a whole burst, left to right. -/
def enqueueAll (l : List RawEvent) (q : EventQueue) : EventQueue :=
  l.foldl (fun q ev => enqueue ev q) q

/-- The drain loop of the `read` hook
(`while (injected < max_events && dequeue(&events[injected])) injected++;`):
dequeues at most `n` records, stopping early when the queue runs empty.
Returns the drained records in order together with the remaining queue. -/
def drainLoop : Nat → EventQueue → List RawEvent × EventQueue
  | 0, q => ([], q)
  | n + 1, q =>
    match (dequeue q).1 with
    | none => ([], (dequeue q).2)
    | some e =>
      let p := drainLoop n (dequeue q).2
      (e :: p.1, p.2)

/-- Drain everything currently stored. -/
def drainAll (q : EventQueue) : List RawEvent :=
  (drainLoop (size q) q).1

/-- A queue operation: producer enqueue or consumer dequeue. -/
inductive QOp where
  | enq (ev : RawEvent)
  | deq
deriving DecidableEq

/-- Run a sequence of interleaved queue operations; the second component
records each dequeue's result in order. -/
def runOps : List QOp → EventQueue → EventQueue × List (Option RawEvent)
  | [], q => (q, [])
  | QOp.enq e :: rest, q => runOps rest (enqueue e q)
  | QOp.deq :: rest, q =>
    let d := dequeue q
    let p := runOps rest d.2
    (p.1, d.1 :: p.2)

/-- The events a sequence of operations enqueues, in order. -/
def enqList (ops : List QOp) : List RawEvent :=
  ops.filterMap (fun op => match op with | QOp.enq e => some e | QOp.deq => none)

/-- How many enqueues a sequence of operations contains. -/
def countEnq (ops : List QOp) : Nat :=
  (enqList ops).length

/-- A burst of `n` pairwise distinct events. -/
def burstEvents (n : Nat) : List RawEvent :=
  (List.range n).map (fun i => make_event EV_ABS ABS_X (Int.ofNat i))

/-- A concrete full ring (9999 stored records). -/
def fullQueue : EventQueue :=
  ⟨fun _ => ⟨0, 0, 0⟩, 0, 9999⟩

/-! ### Ring-buffer lemmas -/

theorem wf_emptyQueue : wf emptyQueue := by decide

theorem size_lt (q : EventQueue) : size q < MAX_QUEUE :=
  Nat.mod_lt _ (by decide)

theorem length_toList (q : EventQueue) : (toList q).length = size q := by
  simp [toList]

theorem toList_of_size_zero (q : EventQueue) (h : size q = 0) : toList q = [] := by
  simp [toList, h]

theorem size_zero_iff (q : EventQueue) (h : wf q) :
    size q = 0 ↔ q.q_head = q.q_tail := by
  obtain ⟨h1, h2⟩ := h
  unfold size MAX_QUEUE at *
  omega

theorem wf_enqueue (ev : RawEvent) (q : EventQueue) (h : wf q) :
    wf (enqueue ev q) := by
  obtain ⟨h1, h2⟩ := h
  unfold enqueue
  split
  · exact ⟨h1, Nat.mod_lt _ (by decide)⟩
  · exact ⟨h1, h2⟩

theorem enqueue_full (ev : RawEvent) (q : EventQueue)
    (h : (q.q_tail + 1) % MAX_QUEUE = q.q_head) : enqueue ev q = q := by
  unfold enqueue
  simp [h]

theorem size_enqueue (ev : RawEvent) (q : EventQueue) (h : wf q)
    (hs : size q < MAX_QUEUE - 1) : size (enqueue ev q) = size q + 1 := by
  obtain ⟨h1, h2⟩ := h
  have hg : (q.q_tail + 1) % MAX_QUEUE ≠ q.q_head := by
    unfold size MAX_QUEUE at *; omega
  unfold enqueue
  rw [if_pos hg]
  unfold size MAX_QUEUE at *
  simp only []
  omega

theorem toList_enqueue (ev : RawEvent) (q : EventQueue) (h : wf q)
    (hs : size q < MAX_QUEUE - 1) :
    toList (enqueue ev q) = toList q ++ [ev] := by
  obtain ⟨h1, h2⟩ := h
  have hg : (q.q_tail + 1) % MAX_QUEUE ≠ q.q_head := by
    unfold size MAX_QUEUE at *; omega
  have hsz : size (enqueue ev q) = size q + 1 :=
    size_enqueue ev q ⟨h1, h2⟩ hs
  unfold enqueue at hsz ⊢
  rw [if_pos hg] at hsz ⊢
  unfold toList
  rw [hsz, List.range_succ, List.map_append]
  congr 1
  · apply List.map_congr_left
    intro i hi
    rw [List.mem_range] at hi
    simp only []
    rw [if_neg]
    unfold size MAX_QUEUE at *
    omega
  · simp only [List.map_cons, List.map_nil]
    congr 1
    rw [if_pos]
    unfold size MAX_QUEUE at *
    omega

theorem dequeue_empty (q : EventQueue) (h : q.q_head = q.q_tail) :
    dequeue q = (none, q) := by
  unfold dequeue
  simp [h]

theorem wf_dequeue_snd (q : EventQueue) (h : wf q) : wf (dequeue q).2 := by
  obtain ⟨h1, h2⟩ := h
  unfold dequeue
  split
  · exact ⟨h1, h2⟩
  · exact ⟨Nat.mod_lt _ (by decide), h2⟩

theorem toList_dequeue (q : EventQueue) (h : wf q) (hne : q.q_head ≠ q.q_tail) :
    (dequeue q).1 = some (q.store q.q_head) ∧
      toList q = q.store q.q_head :: toList (dequeue q).2 := by
  obtain ⟨h1, h2⟩ := h
  unfold dequeue
  rw [if_neg hne]
  refine ⟨rfl, ?_⟩
  have hsz : size q = size { q with q_head := (q.q_head + 1) % MAX_QUEUE } + 1 := by
    unfold size MAX_QUEUE at *
    simp only []
    omega
  unfold toList
  rw [hsz, List.range_succ_eq_map, List.map_cons, List.map_map]
  congr 1
  · simp [Nat.mod_eq_of_lt h1]
  · apply List.map_congr_left
    intro i hi
    rw [List.mem_range] at hi
    have hlt := size_lt { q with q_head := (q.q_head + 1) % MAX_QUEUE }
    simp only [Function.comp]
    congr 1
    unfold size MAX_QUEUE at *
    omega

theorem drainLoop_spec (n : Nat) :
    ∀ q : EventQueue, wf q →
      (drainLoop n q).1 = (toList q).take n ∧
        toList (drainLoop n q).2 = (toList q).drop n ∧ wf (drainLoop n q).2 := by
  induction n with
  | zero =>
    intro q hq
    exact ⟨rfl, rfl, hq⟩
  | succ n ih =>
    intro q hq
    by_cases hne : q.q_head = q.q_tail
    · have hz : size q = 0 := (size_zero_iff q hq).mpr hne
      have ht : toList q = [] := toList_of_size_zero q hz
      have hd : dequeue q = (none, q) := dequeue_empty q hne
      simp [drainLoop, hd, ht, hq]
    · obtain ⟨hd1, hd2⟩ := toList_dequeue q hq hne
      have hwf1 : wf (dequeue q).2 := wf_dequeue_snd q hq
      obtain ⟨ih1, ih2, ih3⟩ := ih (dequeue q).2 hwf1
      have hstep :
          drainLoop (n + 1) q =
            (q.store q.q_head :: (drainLoop n (dequeue q).2).1,
              (drainLoop n (dequeue q).2).2) := by
        conv_lhs => rw [drainLoop]
        rw [hd1]
      rw [hstep, hd2]
      exact ⟨by simp [ih1], by simp [ih2], ih3⟩

theorem drainAll_toList (q : EventQueue) (h : wf q) : drainAll q = toList q := by
  unfold drainAll
  obtain ⟨h1, _, _⟩ := drainLoop_spec (size q) q h
  rw [h1, ← length_toList q, List.take_length]

theorem toList_enqueueAll (l : List RawEvent) :
    ∀ q : EventQueue, wf q → size q + l.length ≤ MAX_QUEUE - 1 →
      toList (enqueueAll l q) = toList q ++ l ∧ wf (enqueueAll l q) := by
  induction l with
  | nil => intro q hq _; exact ⟨by simp [enqueueAll], hq⟩
  | cons e rest ih =>
    intro q hq hb
    have hs : size q < MAX_QUEUE - 1 := by
      simp only [List.length_cons] at hb; omega
    have h1 : toList (enqueue e q) = toList q ++ [e] := toList_enqueue e q hq hs
    have h2 : wf (enqueue e q) := wf_enqueue e q hq
    have h3 : size (enqueue e q) = size q + 1 := size_enqueue e q hq hs
    have hb' : size (enqueue e q) + rest.length ≤ MAX_QUEUE - 1 := by
      simp only [List.length_cons] at hb; omega
    obtain ⟨ih1, ih2⟩ := ih (enqueue e q) h2 hb'
    refine ⟨?_, ih2⟩
    show toList (enqueueAll rest (enqueue e q)) = toList q ++ e :: rest
    rw [ih1, h1, List.append_assoc]
    rfl

theorem enqueueAll_full (q : EventQueue)
    (h : (q.q_tail + 1) % MAX_QUEUE = q.q_head) :
    ∀ l : List RawEvent, enqueueAll l q = q := by
  intro l
  induction l with
  | nil => rfl
  | cons e rest ih =>
    show enqueueAll rest (enqueue e q) = q
    rw [enqueue_full e q h]
    exact ih

theorem runOps_fifo_inv (ops : List QOp) :
    ∀ q : EventQueue, wf q → size q + countEnq ops ≤ MAX_QUEUE - 1 →
      ((runOps ops q).2.filterMap id) ++ toList (runOps ops q).1 =
        toList q ++ enqList ops := by
  induction ops with
  | nil => intro q _ _; simp [runOps, enqList]
  | cons op rest ih =>
    intro q hq hb
    cases op with
    | enq e =>
      have hcnt : countEnq (QOp.enq e :: rest) = countEnq rest + 1 := by
        simp [countEnq, enqList, Nat.add_comm]
      rw [hcnt] at hb
      have hs : size q < MAX_QUEUE - 1 := by omega
      have h1 := toList_enqueue e q hq hs
      have h2 := wf_enqueue e q hq
      have h3 := size_enqueue e q hq hs
      have hb' : size (enqueue e q) + countEnq rest ≤ MAX_QUEUE - 1 := by omega
      have hrun : runOps (QOp.enq e :: rest) q = runOps rest (enqueue e q) := rfl
      rw [hrun, ih (enqueue e q) h2 hb', h1]
      simp [enqList]
    | deq =>
      have hb' : countEnq (QOp.deq :: rest) = countEnq rest := by
        simp [countEnq, enqList]
      rw [hb'] at hb
      have hrun :
          runOps (QOp.deq :: rest) q =
            ((runOps rest (dequeue q).2).1,
              (dequeue q).1 :: (runOps rest (dequeue q).2).2) := rfl
      by_cases hne : q.q_head = q.q_tail
      · have hd : dequeue q = (none, q) := dequeue_empty q hne
        have hfm : List.filterMap id ((none : Option RawEvent) :: (runOps rest q).2) =
            List.filterMap id (runOps rest q).2 := rfl
        rw [hrun, hd, hfm, ih q hq hb]
        simp [enqList]
      · obtain ⟨hd1, hd2⟩ := toList_dequeue q hq hne
        have h2 : wf (dequeue q).2 := wf_dequeue_snd q hq
        have hb2 : size (dequeue q).2 + countEnq rest ≤ MAX_QUEUE - 1 := by
          have hsz : size (dequeue q).2 = (toList (dequeue q).2).length :=
            (length_toList _).symm
          have hlen : (toList q).length = size q := length_toList q
          rw [hd2] at hlen
          simp only [List.length_cons] at hlen
          omega
        have hfm : List.filterMap id
              (some (q.store q.q_head) :: (runOps rest (dequeue q).2).2) =
            q.store q.q_head ::
              List.filterMap id (runOps rest (dequeue q).2).2 := rfl
        rw [hrun, hd1, hfm, List.cons_append, ih (dequeue q).2 h2 hb2, hd2]
        simp [enqList]

/-! ### inject.c — coordinate transform, device detection, read hook -/

namespace Inject

/-- `WACOM_MAX_X` from inject.c. -/
def WACOM_MAX_X : Int := 20966
/-- `WACOM_MAX_Y` from inject.c. -/
def WACOM_MAX_Y : Int := 15725
/-- `DISPLAY_WIDTH` from inject.c. -/
def DISPLAY_WIDTH : Int := 1404
/-- `DISPLAY_HEIGHT` from inject.c. -/
def DISPLAY_HEIGHT : Int := 1872

/-- `to_wacom_x` from inject.c: display Y maps to inverted sensor X.
C `int` division truncates toward zero (`Int.tdiv`). -/
def to_wacom_x (pen_x pen_y : Int) : Int :=
  WACOM_MAX_X - Int.tdiv (pen_y * WACOM_MAX_X) DISPLAY_HEIGHT

/-- `to_wacom_y` from inject.c: display X maps to sensor Y. -/
def to_wacom_y (pen_x pen_y : Int) : Int :=
  Int.tdiv (pen_x * WACOM_MAX_Y) DISPLAY_WIDTH

/-- `sizeof(struct input_event)` on the 32-bit ARM target: 16 bytes. -/
def recordSize : Nat := 16

/-- Outcome of one call of the `read` hook: either synthetic events were
written to the caller's buffer (bypassing the device), or the call fell
through to the real `read` primitive. -/
inductive ReadOutcome where
  | injected (events : List RawEvent) (bytes : Nat)
  | realRead
deriving DecidableEq

/-- The `read` hook of inject.c, lines 272–288, for an already-resolved
target (`wacom_fd ≠ -1`): if `fd` is the target and the queue is non-empty,
drain up to `count / sizeof(struct input_event)` records into the buffer and
return the byte count if at least one record was drained; in every other case
delegate to `original_read`.  Returns the outcome and the queue afterwards. -/
def injectRead (fd wacom_fd : Int) (count : Nat) (q : EventQueue) :
    ReadOutcome × EventQueue :=
  if fd = wacom_fd ∧ has_events q = true then
    if 0 < (drainLoop (count / recordSize) q).1.length then
      (ReadOutcome.injected (drainLoop (count / recordSize) q).1
          ((drainLoop (count / recordSize) q).1.length * recordSize),
        (drainLoop (count / recordSize) q).2)
    else (ReadOutcome.realRead, (drainLoop (count / recordSize) q).2)
  else (ReadOutcome.realRead, q)

/-- The input-device path checked by `is_wacom`
(`strncmp(link, "/dev/input/event", 16)`). -/
def devInputPath : List Char := "/dev/input/event".data

/-- `strstr(hay, needle) != NULL`: `needle` occurs contiguously in `hay`. -/
def hasSub (needle : List Char) : List Char → Bool
  | [] => needle.isEmpty
  | c :: rest => needle.isPrefixOf (c :: rest) || hasSub needle rest

/-- `is_wacom` from inject.c (`is_wacom_device` in inject_hook.c).  `link` is
the result of `readlink("/proc/self/fd/N")` (`none` on failure), `name` the
result of `ioctl(fd, EVIOCGNAME, ...)` (`none` on failure).  True only when
the backing path starts with `/dev/input/event` and the reported device name
contains `"Wacom"`. -/
def is_wacom (link name : Option (List Char)) : Bool :=
  match link with
  | none => false
  | some l =>
    if ¬ (devInputPath.isPrefixOf l = true) then false
    else
      match name with
      | none => false
      | some n => hasSub "Wacom".data n

/-- The detection step of the `read` hook, lines 262–270: while `wacom_fd`
is unresolved (`-1`), the first handle classified by `is_wacom` is adopted as
the target; afterwards `wacom_fd` never changes. -/
def detectTarget (wacom_fd fd : Int) (link name : Option (List Char)) : Int :=
  if wacom_fd = -1 ∧ is_wacom link name = true then fd else wacom_fd

/-! #### FIFO command parser (`fifo_reader`, lines 150–247) -/

/-- C `isspace` for the default locale. -/
def isSpaceC (c : Char) : Bool :=
  c = ' ' || c = '\t' || c = '\n' || c = '\x0b' || c = '\x0c' || c = '\r'

/-- C `isdigit`. -/
def isDigitC (c : Char) : Bool := '0' ≤ c && c ≤ '9'

/-- Numeric value of a decimal digit string (most significant first). -/
def digitsVal (ds : List Char) : Nat :=
  ds.foldl (fun acc c => acc * 10 + (c.toNat - '0'.toNat)) 0

/-- `sscanf` `%d`: skip whitespace, optional sign, then at least one decimal
digit; `none` on matching failure, otherwise the value and the rest. -/
def scanInt (cs : List Char) : Option (Int × List Char) :=
  let cs1 := cs.dropWhile isSpaceC
  match cs1 with
  | '-' :: rest =>
    let ds := rest.takeWhile isDigitC
    if ds.isEmpty then none
    else some (-(digitsVal ds : Int), rest.dropWhile isDigitC)
  | '+' :: rest =>
    let ds := rest.takeWhile isDigitC
    if ds.isEmpty then none
    else some ((digitsVal ds : Int), rest.dropWhile isDigitC)
  | _ =>
    let ds := cs1.takeWhile isDigitC
    if ds.isEmpty then none
    else some ((digitsVal ds : Int), cs1.dropWhile isDigitC)

/-- Result of `sscanf(line, "%s %d %d", cmd, &x, &y)` in `fifo_reader`:
the keyword, the two integers (left at their pre-initialised value `0` when
unassigned, as inject.c initialises `int x = 0, y = 0`), and the number of
successful assignments (the `sscanf` return value, with EOF mapped to 0). -/
structure ScanResult where
  cmd : List Char
  x : Int
  y : Int
  count : Nat
deriving DecidableEq

/-- `sscanf(line, "%s %d %d", ...)`: `%s` skips whitespace and reads one
non-whitespace token; each `%d` as in `scanInt`; scanning stops at the first
matching failure. -/
def sscanf3 (cs : List Char) : ScanResult :=
  let cs1 := cs.dropWhile isSpaceC
  let tok := cs1.takeWhile (fun c => ¬ isSpaceC c)
  if tok.isEmpty then ⟨[], 0, 0, 0⟩
  else
    let rest := cs1.dropWhile (fun c => ¬ isSpaceC c)
    match scanInt rest with
    | none => ⟨tok, 0, 0, 1⟩
    | some (x, rest2) =>
      match scanInt rest2 with
      | none => ⟨tok, x, 0, 2⟩
      | some (y, _) => ⟨tok, x, y, 3⟩

/-- Processing of one complete line by `fifo_reader` (lines 186–232):
comments and empty lines are skipped; otherwise the line is scanned and the
keyword dispatched.  `DELAY` only sleeps the channel's own loop and
`GET_CURSOR` is not known to this variant, so neither touches the queue;
unknown keywords fall through silently. -/
def processLine (line : List Char) (q : EventQueue) : EventQueue :=
  if line.head? = some '#' ∨ line = [] then q
  else
    let r := sscanf3 line
    if 1 ≤ r.count then
      if r.cmd = "PEN_DOWN".data then
        let wx := to_wacom_x r.x r.y
        let wy := to_wacom_y r.x r.y
        enqueue (make_event EV_SYN SYN_REPORT 0)
          (enqueue (make_event EV_ABS ABS_PRESSURE 2000)
            (enqueue (make_event EV_ABS ABS_Y wy)
              (enqueue (make_event EV_ABS ABS_X wx)
                (enqueue (make_event EV_KEY BTN_TOUCH 1)
                  (enqueue (make_event EV_KEY BTN_TOOL_PEN 1) q)))))
      else if r.cmd = "PEN_MOVE".data then
        let wx := to_wacom_x r.x r.y
        let wy := to_wacom_y r.x r.y
        enqueue (make_event EV_SYN SYN_REPORT 0)
          (enqueue (make_event EV_ABS ABS_PRESSURE 2000)
            (enqueue (make_event EV_ABS ABS_Y wy)
              (enqueue (make_event EV_ABS ABS_X wx) q)))
      else if r.cmd = "PEN_UP".data then
        enqueue (make_event EV_SYN SYN_REPORT 0)
          (enqueue (make_event EV_KEY BTN_TOOL_PEN 0)
            (enqueue (make_event EV_KEY BTN_TOUCH 0) q))
      else if r.cmd = "DELAY".data then q
      else q
    else q

/-- The keywords `fifo_reader` dispatches on. -/
def knownKeyword (cmd : List Char) : Bool :=
  cmd = "PEN_DOWN".data || cmd = "PEN_MOVE".data ||
    cmd = "PEN_UP".data || cmd = "DELAY".data

/-- Split a character stream at newline terminators: the complete lines (each
without its terminator) and the unterminated trailing fragment.  This is the
`strchr(line, '\n')` loop of `fifo_reader`. -/
def splitLines : List Char → List (List Char) × List Char
  | [] => ([], [])
  | c :: rest =>
    let p := splitLines rest
    if c = '\n' then (([] : List Char) :: p.1, p.2)
    else
      match p.1 with
      | [] => ([], c :: p.2)
      | l :: ls => ((c :: l) :: ls, p.2)

/-- State of the command channel between two transport reads: the buffered
incomplete line (`char leftover[256]`) and the event queue. -/
structure ChannelState where
  leftover : List Char
  queue : EventQueue

/-- Initial channel state: empty fragment buffer, zeroed queue. -/
def initChannel : ChannelState := ⟨[], emptyQueue⟩

/-- Processing of one transport chunk by `fifo_reader` (lines 170–240):
prepend the buffered fragment, process every complete line, and keep the
unterminated remainder as the new fragment only if its length is positive and
below `sizeof(leftover)` = 256 (longer fragments are discarded).  The
`snprintf` bound of 4351 bytes never truncates, because the fragment is
shorter than 256 and a chunk at most 4095 bytes. -/
def processChunk (chunk : List Char) (st : ChannelState) : ChannelState :=
  let combined := st.leftover ++ chunk
  let p := splitLines combined
  let q1 := p.1.foldl (fun q l => processLine l q) st.queue
  { leftover := if 0 < p.2.length ∧ p.2.length < 256 then p.2 else [],
    queue := q1 }

end Inject

/-! ### inject_hook.c — suppression controller, cursor tracking, read hook -/

namespace Hook

/-- `WACOM_MAX_X` from inject_hook.c (portrait-mode X maximum). -/
def WACOM_MAX_X : Int := 15725
/-- `WACOM_MAX_Y` from inject_hook.c (portrait-mode Y maximum). -/
def WACOM_MAX_Y : Int := 20967
/-- `RM2_WIDTH` from inject_hook.c. -/
def RM2_WIDTH : Int := 1404
/-- `RM2_HEIGHT` from inject_hook.c. -/
def RM2_HEIGHT : Int := 1872

/-- `display_to_wacom_x` from inject_hook.c: display X scales to Wacom Y. -/
def display_to_wacom_x (display_x : Int) : Int :=
  Int.tdiv (display_x * WACOM_MAX_Y) RM2_WIDTH

/-- `display_to_wacom_y` from inject_hook.c: display Y scales to Wacom X. -/
def display_to_wacom_y (display_y : Int) : Int :=
  Int.tdiv (display_y * WACOM_MAX_X) RM2_HEIGHT

/-- `SUPPRESSION_MS` from inject_hook.c. -/
def SUPPRESSION_MS : Int := 150

/-- `struct timespec` as used by `clock_gettime(CLOCK_MONOTONIC)`. -/
structure Timespec where
  tv_sec : Int
  tv_nsec : Int
deriving DecidableEq

/-- `timediff_ms` from inject_hook.c. -/
def timediff_ms (start finish : Timespec) : Int :=
  (finish.tv_sec - start.tv_sec) * 1000 +
    Int.tdiv (finish.tv_nsec - start.tv_nsec) 1000000

/-- The mutable globals of inject_hook.c: the event queue, the suppression
flag `suppress_input`, `last_injection_time`, and the cursor trackers
`last_pen_x`/`last_pen_y`. -/
structure HookState where
  queue : EventQueue
  suppress_input : Bool
  last_injection_time : Timespec
  last_pen_x : Int
  last_pen_y : Int

/-- `track_stylus_position` from inject_hook.c: fold the absolute-axis
samples of a buffer into the cursor trackers. -/
def track_stylus_position (cursor : Int × Int) (events : List RawEvent) :
    Int × Int :=
  events.foldl
    (fun c ev =>
      if ev.type = EV_ABS then
        if ev.code = ABS_X then (ev.value, c.2)
        else if ev.code = ABS_Y then (c.1, ev.value)
        else c
      else c)
    cursor

/-- Dispatch of one parsed command by `fifo_reader_thread`
(inject_hook.c lines 178–253).  `cmd`, `x`, `y` are the values scanned by
`sscanf(buf, "%s %d %d", ...)`; `now` is the time `clock_gettime` would
return during this dispatch.  `PEN_DOWN` queues a six-event gesture, records
the injection time and raises suppression; `PEN_MOVE` queues four events and
touches neither; `PEN_UP` queues three events and records the injection time
(the source does not raise `suppress_input` here); `GET_CURSOR` only prints. -/
def handleCommand (cmd : List Char) (x y : Int) (now : Timespec)
    (s : HookState) : HookState :=
  if cmd = "PEN_DOWN".data then
    let wacom_x := display_to_wacom_x x
    let wacom_y := display_to_wacom_y y
    let q := enqueue (make_event EV_SYN SYN_REPORT 0)
      (enqueue (make_event EV_ABS ABS_PRESSURE 2000)
        (enqueue (make_event EV_ABS ABS_Y wacom_y)
          (enqueue (make_event EV_ABS ABS_X wacom_x)
            (enqueue (make_event EV_KEY BTN_TOUCH 1)
              (enqueue (make_event EV_KEY BTN_TOOL_PEN 1) s.queue)))))
    { s with queue := q, last_injection_time := now, suppress_input := true }
  else if cmd = "PEN_MOVE".data then
    let wacom_x := display_to_wacom_x x
    let wacom_y := display_to_wacom_y y
    let q := enqueue (make_event EV_SYN SYN_REPORT 0)
      (enqueue (make_event EV_ABS ABS_PRESSURE 2000)
        (enqueue (make_event EV_ABS ABS_Y wacom_y)
          (enqueue (make_event EV_ABS ABS_X wacom_x) s.queue)))
    { s with queue := q }
  else if cmd = "PEN_UP".data then
    let q := enqueue (make_event EV_SYN SYN_REPORT 0)
      (enqueue (make_event EV_KEY BTN_TOOL_PEN 0)
        (enqueue (make_event EV_KEY BTN_TOUCH 0) s.queue))
    { s with queue := q, last_injection_time := now }
  else
    s

/-- What the real `read` primitive would deliver for this call: its return
value and the records it would place in the buffer. -/
structure GenuineResult where
  bytes : Int
  events : List RawEvent

/-- Result of one call of the inject_hook.c `read` hook: the reported byte
count, whether the real `read` primitive was invoked, and the state
afterwards. -/
structure HookReadOut where
  ret : Int
  usedReal : Bool
  state : HookState

/-- The pass-through tail of the `read` hook (inject_hook.c lines 296–318):
call the real `read`; for a positive result on the target device, consult the
suppression window — inside it the result is discarded (0 reported, nothing
tracked, flag kept), past it the flag is cleared and the sample passed
through; untargeted or non-positive results pass through untouched.  The
pass-through branches update the cursor trackers from the buffer's
`result / sizeof(struct input_event)` records. -/
def hookGenuine (fd wacom_fd : Int) (gen : GenuineResult) (now : Timespec)
    (s : HookState) : HookReadOut :=
  if fd = wacom_fd ∧ 0 < gen.bytes then
    if s.suppress_input then
      if SUPPRESSION_MS < timediff_ms s.last_injection_time now then
        let s1 : HookState := { s with suppress_input := false }
        let c := track_stylus_position (s1.last_pen_x, s1.last_pen_y)
          (gen.events.take (gen.bytes.toNat / Inject.recordSize))
        ⟨gen.bytes, true, { s1 with last_pen_x := c.1, last_pen_y := c.2 }⟩
      else
        ⟨0, true, s⟩
    else
      let c := track_stylus_position (s.last_pen_x, s.last_pen_y)
        (gen.events.take (gen.bytes.toNat / Inject.recordSize))
      ⟨gen.bytes, true, { s with last_pen_x := c.1, last_pen_y := c.2 }⟩
  else
    ⟨gen.bytes, true, s⟩

/-- The full `read` hook of inject_hook.c (lines 263–319) for an
already-resolved target: synthetic drains first, then fall through to the
real primitive guarded by the suppression window. -/
def hookRead (fd wacom_fd : Int) (count : Nat) (gen : GenuineResult)
    (now : Timespec) (s : HookState) : HookReadOut :=
  if fd = wacom_fd ∧ has_events s.queue = true then
    let p := drainLoop (count / Inject.recordSize) s.queue
    if 0 < p.1.length then
      ⟨((p.1.length * Inject.recordSize : Nat) : Int), false, { s with queue := p.2 }⟩
    else hookGenuine fd wacom_fd gen now { s with queue := p.2 }
  else hookGenuine fd wacom_fd gen now s

end Hook

/-! ### analysis_coords.h — calibrated display→Wacom transform -/

namespace Coords

/-- `DISPLAY_WIDTH` from analysis_coords.h. -/
def DISPLAY_WIDTH : Int := 1404
/-- `DISPLAY_HEIGHT` from analysis_coords.h. -/
def DISPLAY_HEIGHT : Int := 1872
/-- `WACOM_X_MIN` from analysis_coords.h (empirical usable bound). -/
def WACOM_X_MIN : Int := 211
/-- `WACOM_X_MAX` from analysis_coords.h. -/
def WACOM_X_MAX : Int := 20820
/-- `WACOM_Y_MIN` from analysis_coords.h. -/
def WACOM_Y_MIN : Int := 90
/-- `WACOM_Y_MAX` from analysis_coords.h. -/
def WACOM_Y_MAX : Int := 15712
/-- `WACOM_X_RANGE` from analysis_coords.h. -/
def WACOM_X_RANGE : Int := WACOM_X_MAX - WACOM_X_MIN
/-- `WACOM_Y_RANGE` from analysis_coords.h. -/
def WACOM_Y_RANGE : Int := WACOM_Y_MAX - WACOM_Y_MIN

/-- `display_to_wacom_x` from analysis_coords.h: display Y feeds the raw X
axis, inverted (subtracted from the raw X maximum). -/
def display_to_wacom_x (display_y : Int) : Int :=
  WACOM_X_MAX - Int.tdiv (display_y * WACOM_X_RANGE) DISPLAY_HEIGHT

/-- `display_to_wacom_y` from analysis_coords.h: display X feeds the raw Y
axis from the raw Y minimum. -/
def display_to_wacom_y (display_x : Int) : Int :=
  WACOM_Y_MIN + Int.tdiv (display_x * WACOM_Y_RANGE) DISPLAY_WIDTH

/-- The mapper `map(displayX, displayY) -> (rawX, rawY)` assembled from the
two axis transforms (display X and Y are swapped into raw Y and raw X). -/
def mapDisplay (display_x display_y : Int) : Int × Int :=
  (display_to_wacom_x display_y, display_to_wacom_y display_x)

end Coords

/-! ### Further queue facts used by several claims -/

theorem size_emptyQueue : size emptyQueue = 0 := rfl

theorem toList_emptyQueue : toList emptyQueue = [] := rfl

theorem burstEvents_succ (n : Nat) :
    burstEvents (n + 1) =
      burstEvents n ++ [make_event EV_ABS ABS_X (Int.ofNat n)] := by
  unfold burstEvents
  rw [List.range_succ, List.map_append]
  rfl

theorem length_burstEvents (n : Nat) : (burstEvents n).length = n := by
  rw [burstEvents, List.length_map, List.length_range]

theorem burst9999 :
    toList (enqueueAll (burstEvents 9999) emptyQueue) = burstEvents 9999 ∧
      wf (enqueueAll (burstEvents 9999) emptyQueue) := by
  have h := toList_enqueueAll (burstEvents 9999) emptyQueue wf_emptyQueue
    (by rw [size_emptyQueue, length_burstEvents]; decide)
  simpa [toList_emptyQueue] using h

theorem full_of_size_eq (q : EventQueue) (h : wf q)
    (hs : size q = MAX_QUEUE - 1) :
    (q.q_tail + 1) % MAX_QUEUE = q.q_head := by
  obtain ⟨h1, h2⟩ := h
  unfold size MAX_QUEUE at *
  omega

theorem enqueueAll_concat (l : List RawEvent) (e : RawEvent) (q : EventQueue) :
    enqueueAll (l ++ [e]) q = enqueue e (enqueueAll l q) := by
  unfold enqueueAll
  rw [List.foldl_append]
  rfl

theorem burstFull :
    enqueueAll (burstEvents 10000) emptyQueue =
      enqueueAll (burstEvents 9999) emptyQueue := by
  have h1 := burst9999
  have hsz : size (enqueueAll (burstEvents 9999) emptyQueue) = 9999 := by
    rw [← length_toList, h1.1, length_burstEvents]
  have hm : MAX_QUEUE - 1 = 9999 := by norm_num [MAX_QUEUE]
  have hfull : ((enqueueAll (burstEvents 9999) emptyQueue).q_tail + 1) % MAX_QUEUE =
      (enqueueAll (burstEvents 9999) emptyQueue).q_head :=
    full_of_size_eq _ h1.2 (by rw [hsz, hm])
  have h10 : (10000 : Nat) = 9999 + 1 := by norm_num
  have hsplit : burstEvents 10000 =
      burstEvents 9999 ++ [make_event EV_ABS ABS_X (Int.ofNat 9999)] := by
    rw [h10]
    exact burstEvents_succ 9999
  rw [hsplit, enqueueAll_concat]
  exact enqueue_full _ _ hfull

/-! ### Claim theorems -/

/-- C4: with the calibrated TransformConfig {width 1404, height 1872,
raw X range [211, 20820] inverted, raw Y range [90, 15712] swapped}, the
coordinate mapper sends the four display corners exactly to
`map(0,0) = (20820, 90)`, `map(1404,0) = (20820, 15712)`,
`map(0,1872) = (211, 90)` and `map(1404,1872) = (211, 15712)`. -/
theorem claim_C4_corner_mapping :
    Coords.mapDisplay 0 0 = (20820, 90) ∧
      Coords.mapDisplay 1404 0 = (20820, 15712) ∧
      Coords.mapDisplay 0 1872 = (211, 90) ∧
      Coords.mapDisplay 1404 1872 = (211, 15712) := by
  decide

/-- C10: the ring buffer stores at most capacity − 1 = 9999 events.  An
enqueue drops the new event exactly when `(q_tail + 1) % MAX_QUEUE = q_head`
(leaving the queue unchanged), appends it otherwise, the stored count never
reaches the declared capacity, and in a burst of 10000 enqueues onto the
undrained queue the 10000th event is dropped: the 10000-burst ends in the
same state as the 9999-burst, which stores all 9999 of its events. -/
theorem claim_C10_effective_capacity :
    (∀ (q : EventQueue) (ev : RawEvent),
        (q.q_tail + 1) % MAX_QUEUE = q.q_head → enqueue ev q = q) ∧
    (∀ (q : EventQueue) (ev : RawEvent), wf q →
        (q.q_tail + 1) % MAX_QUEUE ≠ q.q_head →
        toList (enqueue ev q) = toList q ++ [ev]) ∧
    (∀ q : EventQueue, size q ≤ MAX_QUEUE - 1) ∧
    enqueueAll (burstEvents 10000) emptyQueue =
      enqueueAll (burstEvents 9999) emptyQueue ∧
    toList (enqueueAll (burstEvents 9999) emptyQueue) = burstEvents 9999 := by
  refine ⟨fun q ev h => enqueue_full ev q h,
    fun q ev hwf hnf => toList_enqueue ev q hwf ?_,
    fun q => ?_, burstFull, burst9999.1⟩
  · obtain ⟨h1, h2⟩ := hwf
    unfold size MAX_QUEUE at *
    omega
  · have h := size_lt q
    unfold MAX_QUEUE at *
    omega

/-- Witness for C10 at concrete inputs: on the full ring the enqueue is a
no-op; on the empty ring it appends. -/
theorem claim_C10_witness :
    enqueue (make_event EV_KEY BTN_TOUCH 1) fullQueue = fullQueue ∧
      toList (enqueue (make_event EV_KEY BTN_TOUCH 1) emptyQueue) =
        toList emptyQueue ++ [make_event EV_KEY BTN_TOUCH 1] :=
  ⟨claim_C10_effective_capacity.1 fullQueue _ (by decide),
    claim_C10_effective_capacity.2.1 emptyQueue _ (by decide) (by decide)⟩

/-- C6: the stored count never exceeds the capacity, and an enqueue onto a
full ring is a pure no-op — the already-stored events, `q_head` and `q_tail`
are untouched and only the new event is dropped — and this holds for bursts
of any size. -/
theorem claim_C6_overflow_drops_new :
    (∀ q : EventQueue, size q ≤ MAX_QUEUE) ∧
    (∀ (q : EventQueue) (ev : RawEvent),
        (q.q_tail + 1) % MAX_QUEUE = q.q_head → enqueue ev q = q) ∧
    (∀ (q : EventQueue) (l : List RawEvent),
        (q.q_tail + 1) % MAX_QUEUE = q.q_head → enqueueAll l q = q) :=
  ⟨fun q => Nat.le_of_lt (size_lt q),
    fun q ev h => enqueue_full ev q h,
    fun q l h => enqueueAll_full q h l⟩

/-- Witness for C6 at the concrete full ring. -/
theorem claim_C6_witness :
    size fullQueue ≤ MAX_QUEUE ∧
      enqueue (make_event EV_KEY BTN_TOUCH 1) fullQueue = fullQueue ∧
      enqueueAll (burstEvents 3) fullQueue = fullQueue :=
  ⟨claim_C6_overflow_drops_new.1 fullQueue,
    claim_C6_overflow_drops_new.2.1 fullQueue _ (by decide),
    claim_C6_overflow_drops_new.2.2 fullQueue _ (by decide)⟩

/-- C5 (amended): for every sequence of enqueues whose total count does not
exceed capacity − 1 = 9999 (not the full capacity 10000: the ring keeps one
slot free), interleaved arbitrarily with dequeues, the successful dequeue
results followed by the events still stored are exactly the enqueued events
in enqueue order — nothing dropped, duplicated or reordered. -/
theorem claim_C5_fifo_law (ops : List QOp)
    (h : countEnq ops ≤ MAX_QUEUE - 1) :
    ((runOps ops emptyQueue).2.filterMap id) ++
        toList (runOps ops emptyQueue).1 = enqList ops := by
  have hinv := runOps_fifo_inv ops emptyQueue wf_emptyQueue
    (by rw [size_emptyQueue]; omega)
  simpa [toList_emptyQueue] using hinv

/-- Witness for C5 on a small interleaved schedule. -/
theorem claim_C5_witness :
    countEnq
        [QOp.enq (make_event EV_KEY BTN_TOOL_PEN 1),
          QOp.enq (make_event EV_KEY BTN_TOUCH 1), QOp.deq,
          QOp.enq (make_event EV_SYN SYN_REPORT 0), QOp.deq, QOp.deq,
          QOp.deq] ≤ MAX_QUEUE - 1 ∧
      ((runOps
            [QOp.enq (make_event EV_KEY BTN_TOOL_PEN 1),
              QOp.enq (make_event EV_KEY BTN_TOUCH 1), QOp.deq,
              QOp.enq (make_event EV_SYN SYN_REPORT 0), QOp.deq, QOp.deq,
              QOp.deq] emptyQueue).2.filterMap id) ++
          toList (runOps
            [QOp.enq (make_event EV_KEY BTN_TOOL_PEN 1),
              QOp.enq (make_event EV_KEY BTN_TOUCH 1), QOp.deq,
              QOp.enq (make_event EV_SYN SYN_REPORT 0), QOp.deq, QOp.deq,
              QOp.deq] emptyQueue).1 =
        enqList
          [QOp.enq (make_event EV_KEY BTN_TOOL_PEN 1),
            QOp.enq (make_event EV_KEY BTN_TOUCH 1), QOp.deq,
            QOp.enq (make_event EV_SYN SYN_REPORT 0), QOp.deq, QOp.deq,
            QOp.deq] :=
  ⟨by decide, claim_C5_fifo_law _ (by decide)⟩

/-- C5 counterexample to the claim as stated (bound 10000): a burst of
exactly 10000 = capacity enqueues followed by a full drain does not return
the enqueued sequence — the 10000th event is missing. -/
theorem claim_C5_counterexample :
    drainAll (enqueueAll (burstEvents 10000) emptyQueue) ≠
      burstEvents 10000 := by
  rw [burstFull, drainAll_toList _ burst9999.2, burst9999.1]
  intro heq
  have hlen := congrArg List.length heq
  rw [length_burstEvents, length_burstEvents] at hlen
  omega

/-- Helper: `has_events` agrees with index inequality. -/
theorem has_events_iff (q : EventQueue) :
    has_events q = true ↔ q.q_head ≠ q.q_tail := by
  simp [has_events]

/-- Helper: a queue with one enqueued event, target of the C1 counterexample. -/
def oneEventQueue : EventQueue :=
  enqueue (make_event EV_KEY BTN_TOOL_PEN 1) emptyQueue

/-- C1 (amended): when `handle` is the resolved target, the queue is
non-empty and `requestedCount` is at least one record's size, the shim drains
up to `requestedCount / recordSize` queued events into the buffer in FIFO
order (the oldest events first, the remainder staying queued), returns the
consumed byte count — a multiple of one record's size — and never invokes the
real read primitive; when `requestedCount` is smaller than one record's size,
however, no event is drained and the call falls through to the real read
primitive with the queue left intact. -/
theorem claim_C1_drain_path :
    (∀ (w : Int) (cnt : Nat) (q : EventQueue), wf q → has_events q = true →
        Inject.recordSize ≤ cnt →
        (Inject.injectRead w w cnt q).1 =
            Inject.ReadOutcome.injected
              ((toList q).take (cnt / Inject.recordSize))
              (((toList q).take (cnt / Inject.recordSize)).length *
                Inject.recordSize) ∧
          toList (Inject.injectRead w w cnt q).2 =
            (toList q).drop (cnt / Inject.recordSize) ∧
          (Inject.injectRead w w cnt q).1 ≠ Inject.ReadOutcome.realRead ∧
          Inject.recordSize ∣
            ((toList q).take (cnt / Inject.recordSize)).length *
              Inject.recordSize) ∧
    (∀ (w : Int) (cnt : Nat) (q : EventQueue), cnt < Inject.recordSize →
        Inject.injectRead w w cnt q = (Inject.ReadOutcome.realRead, q)) := by
  constructor
  · intro w cnt q hwf hev hcnt
    have hm : 1 ≤ cnt / Inject.recordSize :=
      (Nat.one_le_div_iff (by decide)).mpr hcnt
    have hne : q.q_head ≠ q.q_tail := (has_events_iff q).mp hev
    have hszne : size q ≠ 0 := fun h0 => hne ((size_zero_iff q hwf).mp h0)
    obtain ⟨hd1, hd2, _⟩ := drainLoop_spec (cnt / Inject.recordSize) q hwf
    have hlen : ((toList q).take (cnt / Inject.recordSize)).length =
        min (cnt / Inject.recordSize) (size q) := by
      rw [List.length_take, length_toList]
    have hpos : 0 < (drainLoop (cnt / Inject.recordSize) q).1.length := by
      rw [hd1, hlen]
      omega
    unfold Inject.injectRead
    rw [if_pos ⟨rfl, hev⟩, if_pos hpos]
    refine ⟨by rw [hd1], by exact hd2, by simp, dvd_mul_left _ _⟩
  · intro w cnt q hcnt
    have hdiv : cnt / Inject.recordSize = 0 := Nat.div_eq_of_lt hcnt
    unfold Inject.injectRead
    rw [hdiv]
    by_cases hc : w = w ∧ has_events q = true
    · rw [if_pos hc]
      simp [drainLoop]
    · rw [if_neg hc]

/-- Witness for C1: a two-event queue drained with a two-record buffer, and
the same queue with an eight-byte buffer falling through. -/
theorem claim_C1_witness :
    ((Inject.injectRead 5 5 32 oneEventQueue).1 =
        Inject.ReadOutcome.injected
          ((toList oneEventQueue).take (32 / Inject.recordSize))
          (((toList oneEventQueue).take (32 / Inject.recordSize)).length *
            Inject.recordSize) ∧
      toList (Inject.injectRead 5 5 32 oneEventQueue).2 =
        (toList oneEventQueue).drop (32 / Inject.recordSize) ∧
      (Inject.injectRead 5 5 32 oneEventQueue).1 ≠
        Inject.ReadOutcome.realRead ∧
      Inject.recordSize ∣
        ((toList oneEventQueue).take (32 / Inject.recordSize)).length *
          Inject.recordSize) ∧
    Inject.injectRead 5 5 8 oneEventQueue =
      (Inject.ReadOutcome.realRead, oneEventQueue) :=
  ⟨claim_C1_drain_path.1 5 32 oneEventQueue (by decide) (by decide) (by decide),
    claim_C1_drain_path.2 5 8 oneEventQueue (by decide)⟩

/-- C1 counterexample to the claim as stated: with the target handle, a
non-empty queue and a request of 8 bytes (smaller than one 16-byte record),
the shim does invoke the real read primitive. -/
theorem claim_C1_counterexample :
    has_events oneEventQueue = true ∧
      (Inject.injectRead 5 5 8 oneEventQueue).1 =
        Inject.ReadOutcome.realRead := by
  decide

/-- C7 (amended): a line whose scanned keyword is unknown leaves the event
queue unchanged (this variant keeps no suppression state, and the loop
proceeds to the next line), but a known keyword with malformed integer
arguments is not skipped: the arguments keep their pre-initialised value 0,
so `PEN_DOWN abc def` is processed exactly like `PEN_DOWN 0 0` and enqueues a
pen-down gesture at display (0,0). -/
theorem claim_C7_malformed_lines :
    (∀ (line : List Char) (q : EventQueue),
        Inject.knownKeyword (Inject.sscanf3 line).cmd = false →
        Inject.processLine line q = q) ∧
    (∀ q : EventQueue,
        Inject.processLine "PEN_DOWN abc def".data q =
          Inject.processLine "PEN_DOWN 0 0".data q) := by
  constructor
  · intro line q h
    simp only [Inject.knownKeyword, Bool.or_eq_false_iff,
      decide_eq_false_iff_not] at h
    obtain ⟨⟨⟨h1, h2⟩, h3⟩, h4⟩ := h
    unfold Inject.processLine
    split
    · rfl
    · simp [h1, h2, h3, h4]
  · intro q
    rfl

/-- Witness for C7: the unknown keyword `FOO` leaves a queue unchanged. -/
theorem claim_C7_witness :
    Inject.knownKeyword (Inject.sscanf3 "FOO 1 2".data).cmd = false ∧
      Inject.processLine "FOO 1 2".data emptyQueue = emptyQueue :=
  ⟨by decide, claim_C7_malformed_lines.1 _ emptyQueue (by decide)⟩

/-- C7 counterexample to the claim as stated: the malformed line
`PEN_DOWN abc def` does not leave the queue unchanged — six events are
enqueued. -/
theorem claim_C7_counterexample :
    toList (Inject.processLine "PEN_DOWN abc def".data emptyQueue) ≠
      toList emptyQueue := by
  decide

/-- C8: the protocol line `PEN_DOWN 10 20\n` delivered as the two transport
chunks `PEN_DO` and `WN 10 20\n` reassembles exactly: the first chunk parses
nothing and is buffered whole as the fragment, and after the second chunk the
channel state — fragment and queue — is identical to the state after the
whole line in one read, with exactly the six events of one PenDown gesture
queued. -/
theorem claim_C8_split_line :
    Inject.processChunk "WN 10 20\n".data
        (Inject.processChunk "PEN_DO".data Inject.initChannel) =
      Inject.processChunk "PEN_DOWN 10 20\n".data Inject.initChannel ∧
    toList (Inject.processChunk "WN 10 20\n".data
        (Inject.processChunk "PEN_DO".data Inject.initChannel)).queue =
      [make_event EV_KEY BTN_TOOL_PEN 1, make_event EV_KEY BTN_TOUCH 1,
        make_event EV_ABS ABS_X (Inject.to_wacom_x 10 20),
        make_event EV_ABS ABS_Y (Inject.to_wacom_y 10 20),
        make_event EV_ABS ABS_PRESSURE 2000,
        make_event EV_SYN SYN_REPORT 0] ∧
    (Inject.processChunk "PEN_DO".data Inject.initChannel).queue =
      emptyQueue ∧
    (Inject.processChunk "PEN_DO".data Inject.initChannel).leftover =
      "PEN_DO".data :=
  ⟨rfl, by decide, rfl, by decide⟩

/-- C9: classification returns true exactly when both checks pass — the
handle's resolved backing path starts with `/dev/input/event` and the
reported device name contains `Wacom` — any query failure (path resolution or
name query) yields false, and a handle whose name lacks the substring is
never adopted as the target, even when its path matches the prefix. -/
theorem claim_C9_classification :
    (∀ link name : Option (List Char),
        Inject.is_wacom link name = true ↔
          ∃ l n, link = some l ∧ name = some n ∧
            Inject.devInputPath.isPrefixOf l = true ∧
            Inject.hasSub "Wacom".data n = true) ∧
    (∀ name, Inject.is_wacom none name = false) ∧
    (∀ link, Inject.is_wacom link none = false) ∧
    (∀ (w fd : Int) (link : Option (List Char)) (n : List Char),
        Inject.hasSub "Wacom".data n = false →
        Inject.detectTarget w fd link (some n) = w) := by
  have hname : ∀ (link : Option (List Char)) (n : List Char),
      Inject.is_wacom link (some n) = true →
      Inject.hasSub "Wacom".data n = true := by
    intro link n h
    cases link with
    | none => exact absurd h (by simp [Inject.is_wacom])
    | some l =>
      by_cases hp : Inject.devInputPath.isPrefixOf l = true
      · simpa [Inject.is_wacom, hp] using h
      · simp [Inject.is_wacom, hp] at h
  refine ⟨?_, ?_, ?_, ?_⟩
  · intro link name
    constructor
    · intro h
      cases link with
      | none => exact absurd h (by simp [Inject.is_wacom])
      | some l =>
        cases name with
        | none => exact absurd h (by simp [Inject.is_wacom])
        | some n =>
          by_cases hp : Inject.devInputPath.isPrefixOf l = true
          · exact ⟨l, n, rfl, rfl, hp, by simpa [Inject.is_wacom, hp] using h⟩
          · exact absurd h (by simp [Inject.is_wacom, hp])
    · rintro ⟨l, n, rfl, rfl, hp, hs⟩
      simp [Inject.is_wacom, hp, hs]
  · intro name
    rfl
  · intro link
    cases link with
    | none => rfl
    | some l => simp [Inject.is_wacom]
  · intro w fd link n h
    unfold Inject.detectTarget
    rw [if_neg]
    rintro ⟨_, hwac⟩
    rw [hname link n hwac] at h
    cases h

/-- Witness for C9: a handle backed by `/dev/input/event1` whose reported
name is the touchscreen `pt_mt` is not adopted. -/
theorem claim_C9_witness :
    Inject.hasSub "Wacom".data "pt_mt".data = false ∧
      Inject.detectTarget (-1) 7 (some "/dev/input/event1".data)
        (some "pt_mt".data) = -1 :=
  ⟨by decide, claim_C9_classification.2.2.2 (-1) 7 _ _ (by decide)⟩

/-- A quiet hook state (suppression off), start of the C3 counterexample. -/
def quietHookState : Hook.HookState :=
  ⟨emptyQueue, false, ⟨0, 0⟩, 0, 0⟩

/-- C3 counterexample to the claim as stated: from the Quiet state
(suppression flag clear), dispatching `PEN_UP` does not transition to
Suppressing — the flag stays clear (only the timestamp is recorded). -/
theorem claim_C3_counterexample :
    quietHookState.suppress_input = false ∧
      (Hook.handleCommand "PEN_UP".data 0 0 ⟨5, 0⟩
          quietHookState).suppress_input = false := by
  decide

/-- C3 (amended): the suppression controller transitions to Suppressing on
every PenDown, recording the current time as the injection timestamp; on
PenUp it records the current time as the injection timestamp but leaves the
suppression flag unchanged (so a PenUp in the Quiet state stays Quiet); and
PenMove changes neither the flag nor the timestamp. -/
theorem claim_C3_suppression_transitions (s : Hook.HookState) (x y : Int)
    (now : Hook.Timespec) :
    ((Hook.handleCommand "PEN_DOWN".data x y now s).suppress_input = true ∧
      (Hook.handleCommand "PEN_DOWN".data x y now s).last_injection_time =
        now) ∧
    ((Hook.handleCommand "PEN_UP".data x y now s).suppress_input =
        s.suppress_input ∧
      (Hook.handleCommand "PEN_UP".data x y now s).last_injection_time =
        now) ∧
    ((Hook.handleCommand "PEN_MOVE".data x y now s).suppress_input =
        s.suppress_input ∧
      (Hook.handleCommand "PEN_MOVE".data x y now s).last_injection_time =
        s.last_injection_time) := by
  refine ⟨⟨?_, ?_⟩, ⟨?_, ?_⟩, ⟨?_, ?_⟩⟩ <;>
    simp [Hook.handleCommand]

/-- A hook state inside an injection window (suppression raised at time 0). -/
def suppressedHookState : Hook.HookState :=
  ⟨emptyQueue, true, ⟨0, 0⟩, 0, 0⟩

/-- A genuine 16-byte hardware sample for the suppression claims. -/
def genuineSample : Hook.GenuineResult :=
  ⟨16, [make_event EV_ABS ABS_X 100]⟩

/-- C2: a genuine read of the target device (the synthetic-drain path not
taken: zero-record request or empty queue) that completes while suppression
is raised and the elapsed time since the last injection has not exceeded the
quiet window (150 ms) is discarded — zero bytes reported and the whole state,
queued events included, unchanged; once the elapsed time exceeds the window,
the controller returns to Quiet (flag cleared) and the genuine result is
reported unmodified, with the queue untouched. -/
theorem claim_C2_suppression_window (w : Int) (cnt : Nat)
    (gen : Hook.GenuineResult) (now : Hook.Timespec) (s : Hook.HookState)
    (hpath : cnt / Inject.recordSize = 0 ∨ has_events s.queue = false)
    (hres : 0 < gen.bytes) :
    (s.suppress_input = true →
        Hook.timediff_ms s.last_injection_time now ≤ Hook.SUPPRESSION_MS →
        Hook.hookRead w w cnt gen now s = ⟨0, true, s⟩) ∧
    (s.suppress_input = true →
        Hook.SUPPRESSION_MS < Hook.timediff_ms s.last_injection_time now →
        (Hook.hookRead w w cnt gen now s).ret = gen.bytes ∧
          (Hook.hookRead w w cnt gen now s).state.suppress_input = false ∧
          (Hook.hookRead w w cnt gen now s).state.queue = s.queue) := by
  have hred : Hook.hookRead w w cnt gen now s =
      Hook.hookGenuine w w gen now s := by
    unfold Hook.hookRead
    cases hpath with
    | inl h0 =>
      by_cases hev : has_events s.queue = true
      · rw [if_pos ⟨rfl, hev⟩, h0]
        exact rfl
      · rw [if_neg (fun hc => hev hc.2)]
    | inr h =>
      rw [if_neg]
      rintro ⟨_, hev⟩
      rw [h] at hev
      cases hev
  constructor
  · intro hsup htd
    rw [hred]
    unfold Hook.hookGenuine
    rw [if_pos ⟨rfl, hres⟩, if_pos hsup, if_neg (by omega)]
  · intro hsup htd
    rw [hred]
    unfold Hook.hookGenuine
    rw [if_pos ⟨rfl, hres⟩, if_pos hsup, if_pos htd]
    exact ⟨rfl, rfl, rfl⟩

/-- Witness for C2: with suppression raised at time 0, a genuine sample read
100 ms later is discarded with the state intact, and one read 1000 ms later
passes through, clears the flag and leaves the queue untouched. -/
theorem claim_C2_witness :
    Hook.hookRead 5 5 64 genuineSample ⟨0, 100000000⟩ suppressedHookState =
        ⟨0, true, suppressedHookState⟩ ∧
      ((Hook.hookRead 5 5 64 genuineSample ⟨1, 0⟩ suppressedHookState).ret =
          genuineSample.bytes ∧
        (Hook.hookRead 5 5 64 genuineSample ⟨1, 0⟩
            suppressedHookState).state.suppress_input = false ∧
        (Hook.hookRead 5 5 64 genuineSample ⟨1, 0⟩
            suppressedHookState).state.queue = suppressedHookState.queue) :=
  ⟨(claim_C2_suppression_window 5 64 genuineSample ⟨0, 100000000⟩
      suppressedHookState (Or.inr (by decide)) (by decide)).1
      (by decide) (by decide),
    (claim_C2_suppression_window 5 64 genuineSample ⟨1, 0⟩
      suppressedHookState (Or.inr (by decide)) (by decide)).2
      (by decide) (by decide)⟩
